import Mathlib

/-!
Verification of the japanese-text-utils library (src/unnamed/part_001).

A JavaScript string is modelled as the list of its UTF-16 code units
(`List Nat`).  `charCodeAt(0)` is the head of that list; the spread
`[...text]` groups a high surrogate followed by a low surrogate into one
two-unit element and every other unit into a one-unit element, exactly as
JavaScript iterates a string by code points.
-/

namespace JTU

/-- Surrogate test for a UTF-16 code unit: high surrogate range. -/
def isHighSurrogate (u : Nat) : Bool := decide (0xD800 ≤ u ∧ u ≤ 0xDBFF)

/-- Surrogate test for a UTF-16 code unit: low surrogate range. -/
def isLowSurrogate (u : Nat) : Bool := decide (0xDC00 ≤ u ∧ u ≤ 0xDFFF)

/-- UTF-16 encoding of one Unicode code point as a list of code units. -/
def utf16Char (cp : Nat) : List Nat :=
  if cp < 0x10000 then [cp]
  else [0xD800 + (cp - 0x10000) / 0x400, 0xDC00 + (cp - 0x10000) % 0x400]

/-- UTF-16 encoding of a sequence of code points. -/
def utf16Encode (cps : List Nat) : List Nat := (cps.map utf16Char).flatten

/-- A Unicode scalar value: in range and not a surrogate. -/
def ScalarValue (cp : Nat) : Prop :=
  cp < 0x110000 ∧ ¬(0xD800 ≤ cp ∧ cp ≤ 0xDFFF)

instance : DecidablePred ScalarValue := fun cp => by
  unfold ScalarValue; infer_instance

/-- JavaScript string spread `[...text]`: the list of single-character
strings obtained by iterating the string by code points. -/
def spreadStr : List Nat → List (List Nat)
  | [] => []
  | [u] => [[u]]
  | u :: l :: rest =>
    if isHighSurrogate u && isLowSurrogate l then [u, l] :: spreadStr rest
    else [u] :: spreadStr (l :: rest)

/-! ## Character type detection (part_001 lines 11-64) -/

/-- `isHiragana(char)`: empty string is false, else test `charCodeAt(0)`. -/
def isHiragana (char : List Nat) : Bool :=
  match char with
  | [] => false
  | code :: _ => decide (0x3040 ≤ code ∧ code ≤ 0x309F)

/-- `isKatakana(char)`. -/
def isKatakana (char : List Nat) : Bool :=
  match char with
  | [] => false
  | code :: _ => decide (0x30A0 ≤ code ∧ code ≤ 0x30FF)

/-- `isKanji(char)`: the three CJK ranges tested on `charCodeAt(0)`. -/
def isKanji (char : List Nat) : Bool :=
  match char with
  | [] => false
  | code :: _ =>
    decide ((0x4E00 ≤ code ∧ code ≤ 0x9FAF) ∨
            (0x3400 ≤ code ∧ code ≤ 0x4DBF) ∨
            (0x20000 ≤ code ∧ code ≤ 0x2A6DF))

/-- `isFullWidth(char)`: `charCodeAt(0) > 0xFF`. -/
def isFullWidth (char : List Nat) : Bool :=
  match char with
  | [] => false
  | code :: _ => decide (0xFF < code)

/-- `isHalfWidth(char)`: negation of `isFullWidth`, empty string false. -/
def isHalfWidth (char : List Nat) : Bool :=
  match char with
  | [] => false
  | _ :: _ => !(isFullWidth char)

/-- `isAllHiragana(text)`: `[...text].every(isHiragana)` on nonempty input. -/
def isAllHiragana (text : List Nat) : Bool :=
  if text.length = 0 then false else (spreadStr text).all isHiragana

/-- `isAllKatakana(text)`. -/
def isAllKatakana (text : List Nat) : Bool :=
  if text.length = 0 then false else (spreadStr text).all isKatakana

/-- `isAllKanji(text)`. -/
def isAllKanji (text : List Nat) : Bool :=
  if text.length = 0 then false else (spreadStr text).all isKanji

/-! ## Character conversion (part_001 lines 70-156) -/

/-- `hiraganaToKatakana`: regex replace of `[ぁ-ゖ]` by `+0x60`,
acting on each code unit. -/
def hiraganaToKatakana (text : List Nat) : List Nat :=
  text.map fun c => if 0x3041 ≤ c ∧ c ≤ 0x3096 then c + 0x60 else c

/-- `katakanaToHiragana`: regex replace of `[ァ-ヶ]` by `-0x60`. -/
def katakanaToHiragana (text : List Nat) : List Nat :=
  text.map fun c => if 0x30A1 ≤ c ∧ c ≤ 0x30F6 then c - 0x60 else c

/-- The `halfToFull` lookup table of `halfToFullKatakana`, keyed by the
half-width code unit. -/
def halfToFull : Nat → Option Nat
  | 0xFF71 => some 0x30A2 | 0xFF72 => some 0x30A4 | 0xFF73 => some 0x30A6
  | 0xFF74 => some 0x30A8 | 0xFF75 => some 0x30AA
  | 0xFF76 => some 0x30AB | 0xFF77 => some 0x30AD | 0xFF78 => some 0x30AF
  | 0xFF79 => some 0x30B1 | 0xFF7A => some 0x30B3
  | 0xFF7B => some 0x30B5 | 0xFF7C => some 0x30B7 | 0xFF7D => some 0x30B9
  | 0xFF7E => some 0x30BB | 0xFF7F => some 0x30BD
  | 0xFF80 => some 0x30BF | 0xFF81 => some 0x30C1 | 0xFF82 => some 0x30C4
  | 0xFF83 => some 0x30C6 | 0xFF84 => some 0x30C8
  | 0xFF85 => some 0x30CA | 0xFF86 => some 0x30CB | 0xFF87 => some 0x30CC
  | 0xFF88 => some 0x30CD | 0xFF89 => some 0x30CE
  | 0xFF8A => some 0x30CF | 0xFF8B => some 0x30D2 | 0xFF8C => some 0x30D5
  | 0xFF8D => some 0x30D8 | 0xFF8E => some 0x30DB
  | 0xFF8F => some 0x30DE | 0xFF90 => some 0x30DF | 0xFF91 => some 0x30E0
  | 0xFF92 => some 0x30E1 | 0xFF93 => some 0x30E2
  | 0xFF94 => some 0x30E4 | 0xFF95 => some 0x30E6 | 0xFF96 => some 0x30E8
  | 0xFF97 => some 0x30E9 | 0xFF98 => some 0x30EA | 0xFF99 => some 0x30EB
  | 0xFF9A => some 0x30EC | 0xFF9B => some 0x30ED
  | 0xFF9C => some 0x30EF | 0xFF66 => some 0x30F2 | 0xFF9D => some 0x30F3
  | 0xFF67 => some 0x30A1 | 0xFF68 => some 0x30A3 | 0xFF69 => some 0x30A5
  | 0xFF6A => some 0x30A7 | 0xFF6B => some 0x30A9
  | 0xFF6C => some 0x30E3 | 0xFF6D => some 0x30E5 | 0xFF6E => some 0x30E7
  | 0xFF6F => some 0x30C3
  | 0xFF70 => some 0x30FC | 0xFF61 => some 0x3002 | 0xFF62 => some 0x300C
  | 0xFF63 => some 0x300D | 0xFF64 => some 0x3001 | 0xFF65 => some 0x30FB
  | 0xFF9E => some 0x309B | 0xFF9F => some 0x309C
  | _ => none

/-- `halfToFull[char] || char`: table image with fall-through to the
character itself. -/
def hfGet (c : Nat) : Nat := (halfToFull c).getD c

/-- The `dakutenMap` table of `addDakuten`. -/
def dakutenMap : Nat → Option Nat
  | 0x30AB => some 0x30AC | 0x30AD => some 0x30AE | 0x30AF => some 0x30B0
  | 0x30B1 => some 0x30B2 | 0x30B3 => some 0x30B4
  | 0x30B5 => some 0x30B6 | 0x30B7 => some 0x30B8 | 0x30B9 => some 0x30BA
  | 0x30BB => some 0x30BC | 0x30BD => some 0x30BE
  | 0x30BF => some 0x30C0 | 0x30C1 => some 0x30C2 | 0x30C4 => some 0x30C5
  | 0x30C6 => some 0x30C7 | 0x30C8 => some 0x30C9
  | 0x30CF => some 0x30D0 | 0x30D2 => some 0x30D3 | 0x30D5 => some 0x30D6
  | 0x30D8 => some 0x30D9 | 0x30DB => some 0x30DC
  | _ => none

/-- `addDakuten(char)`: `dakutenMap[char] || char`. -/
def addDakuten (c : Nat) : Nat := (dakutenMap c).getD c

/-- The `handakutenMap` table of `addHandakuten`. -/
def handakutenMap : Nat → Option Nat
  | 0x30CF => some 0x30D1 | 0x30D2 => some 0x30D4 | 0x30D5 => some 0x30D7
  | 0x30D8 => some 0x30DA | 0x30DB => some 0x30DD
  | _ => none

/-- `addHandakuten(char)`: `handakutenMap[char] || char`. -/
def addHandakuten (c : Nat) : Nat := (handakutenMap c).getD c

/-- `halfToFullKatakana(text)`: cursor scan with one code unit of
lookahead; `U+FF9E`/`U+FF9F` after a character consumes both and applies
the combining table to the half-to-full image of the base. -/
def halfToFullKatakana : List Nat → List Nat
  | [] => []
  | [c] => [hfGet c]
  | c :: n :: rest =>
    if n = 0xFF9E then addDakuten (hfGet c) :: halfToFullKatakana rest
    else if n = 0xFF9F then addHandakuten (hfGet c) :: halfToFullKatakana rest
    else hfGet c :: halfToFullKatakana (n :: rest)

/-- `fullToHalfAlphanumeric`: regex replace of `[Ａ-Ｚａ-ｚ０-９]` by `-0xFEE0`. -/
def fullToHalfAlphanumeric (text : List Nat) : List Nat :=
  text.map fun c =>
    if (0xFF21 ≤ c ∧ c ≤ 0xFF3A) ∨ (0xFF41 ≤ c ∧ c ≤ 0xFF5A) ∨
       (0xFF10 ≤ c ∧ c ≤ 0xFF19) then c - 0xFEE0 else c

/-- `halfToFullAlphanumeric`: regex replace of `[A-Za-z0-9]` by `+0xFEE0`. -/
def halfToFullAlphanumeric (text : List Nat) : List Nat :=
  text.map fun c =>
    if (0x41 ≤ c ∧ c ≤ 0x5A) ∨ (0x61 ≤ c ∧ c ≤ 0x7A) ∨
       (0x30 ≤ c ∧ c ≤ 0x39) then c + 0xFEE0 else c

/-! ## Text analysis (part_001 lines 162-196) -/

/-- `getDisplayWidth(text)`: reduce over the spread characters,
full-width counts 2 and half-width counts 1, starting from 0. -/
def getDisplayWidth (text : List Nat) : Nat :=
  (spreadStr text).foldl (fun width char => width + if isFullWidth char then 2 else 1) 0

/-- The record returned by `getCharacterStats`. -/
structure CharacterStats where
  total : Nat
  hiragana : Nat
  katakana : Nat
  kanji : Nat
  fullWidth : Nat
  halfWidth : Nat
  displayWidth : Nat
deriving Repr, DecidableEq

/-- `getCharacterStats(text)`: counts over the spread characters. -/
def getCharacterStats (text : List Nat) : CharacterStats :=
  let chars := spreadStr text
  { total := chars.length
    hiragana := (chars.filter isHiragana).length
    katakana := (chars.filter isKatakana).length
    kanji := (chars.filter isKanji).length
    fullWidth := (chars.filter isFullWidth).length
    halfWidth := (chars.filter isHalfWidth).length
    displayWidth := getDisplayWidth text }

/-- `extractHiragana(text)`: filter the spread characters and join. -/
def extractHiragana (text : List Nat) : List Nat :=
  ((spreadStr text).filter isHiragana).flatten

/-- `extractKatakana(text)`. -/
def extractKatakana (text : List Nat) : List Nat :=
  ((spreadStr text).filter isKatakana).flatten

/-- `extractKanji(text)`. -/
def extractKanji (text : List Nat) : List Nat :=
  ((spreadStr text).filter isKanji).flatten

/-! ## Whitespace utilities (part_001 lines 202-215)

The regex class `[\s　]` uses the ECMAScript `\s`: WhiteSpace and
LineTerminator code points. -/

/-- The ECMAScript `\s` character class on one code unit. -/
def isJsWhitespace (c : Nat) : Bool :=
  decide (c = 0x9 ∨ c = 0xA ∨ c = 0xB ∨ c = 0xC ∨ c = 0xD ∨ c = 0x20 ∨
          c = 0xA0 ∨ c = 0x1680 ∨ (0x2000 ≤ c ∧ c ≤ 0x200A) ∨
          c = 0x2028 ∨ c = 0x2029 ∨ c = 0x202F ∨ c = 0x205F ∨
          c = 0x3000 ∨ c = 0xFEFF)

/-- The regex class `[\s　]` of the whitespace utilities. -/
def wsClass (c : Nat) : Bool := isJsWhitespace c || c = 0x3000

/-- `removeAllWhitespace(text)`: every code unit matching `[\s　]` is
replaced by the empty string. -/
def removeAllWhitespace (text : List Nat) : List Nat :=
  text.filter fun c => !wsClass c

/-- `normalizeWhitespace(text)`: every `U+3000` is replaced by a space. -/
def normalizeWhitespace (text : List Nat) : List Nat :=
  text.map fun c => if c = 0x3000 then 0x20 else c

/-- `trimJapanese(text)`: the regex `^[\s　]+|[\s　]+$` removes
the maximal leading run and the maximal trailing run of class characters. -/
def trimJapanese (text : List Nat) : List Nat :=
  (((text.dropWhile wsClass).reverse).dropWhile wsClass).reverse

/-! ## Theorems -/

/-- The kanji codepoint ranges exactly as the specification lists them. -/
def kanjiRangeSpec (cp : Nat) : Bool :=
  decide ((0x4E00 ≤ cp ∧ cp ≤ 0x9FAF) ∨ (0x3400 ≤ cp ∧ cp ≤ 0x4DBF) ∨
          (0x20000 ≤ cp ∧ cp ≤ 0x2A6DF))

/-- C1: the claim says `isKanji` is true on every character whose codepoint
lies in the three ranges, in particular on every CJK Extension B character.
The code tests `charCodeAt(0)`, which for the Extension B character U+20000
is the high surrogate 0xD840, so `isKanji` returns `false` there even
though U+20000 lies in the range the code itself lists: the Extension B
branch of the code is unreachable. -/
theorem isKanji_misses_extensionB :
    kanjiRangeSpec 0x20000 = true ∧
    isKanji (utf16Char 0x20000) = false ∧
    (∀ cp : Nat, cp < 0x10000 → isKanji (utf16Char cp) = kanjiRangeSpec cp) := by
  refine ⟨by decide, by decide, fun cp h => ?_⟩
  simp only [utf16Char, if_pos h, isKanji, kanjiRangeSpec]

/-- Closed witness for the hypothesised part of the C1 theorem. -/
theorem isKanji_misses_extensionB_witness :
    (0x6F22 : Nat) < 0x10000 ∧ isKanji (utf16Char 0x6F22) = kanjiRangeSpec 0x6F22 :=
  ⟨by decide, isKanji_misses_extensionB.2.2 0x6F22 (by decide)⟩

/-- C2: in `halfToFullKatakana` a base immediately followed by the
half-width dakuten mark U+FF9E or handakuten mark U+FF9F is consumed
together with the mark and replaced by the combined full-width kana;
on ｶﾞｷﾞｸﾞ this yields ガギグ and on ﾊﾟﾋﾟﾌﾟ it yields パピプ. -/
theorem halfToFullKatakana_combining :
    (∀ (c : Nat) (rest : List Nat),
      halfToFullKatakana (c :: 0xFF9E :: rest) =
        addDakuten (hfGet c) :: halfToFullKatakana rest) ∧
    (∀ (c : Nat) (rest : List Nat),
      halfToFullKatakana (c :: 0xFF9F :: rest) =
        addHandakuten (hfGet c) :: halfToFullKatakana rest) ∧
    halfToFullKatakana [0xFF76, 0xFF9E, 0xFF77, 0xFF9E, 0xFF78, 0xFF9E] =
      [0x30AC, 0x30AE, 0x30B0] ∧
    halfToFullKatakana [0xFF8A, 0xFF9F, 0xFF8B, 0xFF9F, 0xFF8C, 0xFF9F] =
      [0x30D1, 0x30D4, 0x30D7] := by
  refine ⟨fun c rest => ?_, fun c rest => ?_, by decide, by decide⟩
  · simp [halfToFullKatakana]
  · simp [halfToFullKatakana]

/-- C3: when the base character's half-to-full image has no entry in the
combining table, the mark U+FF9E or U+FF9F is absorbed and the base is
emitted as its half-to-full image alone; in particular ｱﾞ becomes ア. -/
theorem halfToFullKatakana_mark_absorbed (c : Nat) (rest : List Nat)
    (hd : dakutenMap (hfGet c) = none) (hh : handakutenMap (hfGet c) = none) :
    halfToFullKatakana (c :: 0xFF9E :: rest) = hfGet c :: halfToFullKatakana rest ∧
    halfToFullKatakana (c :: 0xFF9F :: rest) = hfGet c :: halfToFullKatakana rest ∧
    halfToFullKatakana [0xFF71, 0xFF9E] = [0x30A2] := by
  refine ⟨?_, ?_, by decide⟩
  · simp [halfToFullKatakana, addDakuten, hd]
  · simp [halfToFullKatakana, addHandakuten, hh]

/-- Closed witness for the C3 theorem at the base ｱ (U+FF71). -/
theorem halfToFullKatakana_mark_absorbed_witness :
    dakutenMap (hfGet 0xFF71) = none ∧ handakutenMap (hfGet 0xFF71) = none ∧
    halfToFullKatakana [0xFF71, 0xFF9E] = [0x30A2] :=
  ⟨by decide, by decide,
    (halfToFullKatakana_mark_absorbed 0xFF71 [] (by decide) (by decide)).2.2⟩

/-- The deleted-character set of the amended C4 claim, written out in one
place: the ECMAScript `\s` class together with the full-width space. -/
def specDeletedChar (c : Nat) : Bool :=
  decide (c = 0x9 ∨ c = 0xA ∨ c = 0xB ∨ c = 0xC ∨ c = 0xD ∨ c = 0x20 ∨
          c = 0x3000 ∨ c = 0xA0 ∨ c = 0x1680 ∨ (0x2000 ≤ c ∧ c ≤ 0x200A) ∨
          c = 0x2028 ∨ c = 0x2029 ∨ c = 0x202F ∨ c = 0x205F ∨ c = 0xFEFF)

/-- C4 counterexample: the claim says the no-break space U+00A0 and the
line separator U+2028 are left unchanged, but `removeAllWhitespace`
deletes both, because the regex class `\s` matches all Unicode
whitespace, not only ASCII whitespace. -/
theorem removeAllWhitespace_deletes_nbsp :
    removeAllWhitespace [0xA0] = [] ∧ removeAllWhitespace [0x2028] = [] := by
  decide

/-- C4 (amended): `removeAllWhitespace` deletes exactly the characters of
the ECMAScript `\s` class (ASCII whitespace, NBSP, Ogham space mark, the
Unicode space separators, line and paragraph separators, BOM) or the
full-width space U+3000, and leaves every other character unchanged in
its original relative order. -/
theorem removeAllWhitespace_amended (s : List Nat) :
    removeAllWhitespace s = s.filter fun c => !specDeletedChar c := by
  have h : ∀ c : Nat, wsClass c = specDeletedChar c := by
    intro c
    rw [Bool.eq_iff_iff]
    simp only [wsClass, isJsWhitespace, specDeletedChar, Bool.or_eq_true,
      decide_eq_true_eq]
    tauto
  unfold removeAllWhitespace
  exact List.filter_congr fun c _ => by rw [h]

/-- Closed witness for the C4 amended theorem at a concrete input. -/
theorem removeAllWhitespace_amended_witness :
    removeAllWhitespace [0x61, 0x20, 0xA0, 0x3000, 0x3042] =
      List.filter (fun c => !specDeletedChar c) [0x61, 0x20, 0xA0, 0x3000, 0x3042] :=
  removeAllWhitespace_amended [0x61, 0x20, 0xA0, 0x3000, 0x3042]

/-- Auxiliary characterisation of the shared shape of the three
`isAll` predicates. -/
theorem isAllAux_iff (p : List Nat → Bool) (s : List Nat) :
    (if s.length = 0 then false else (spreadStr s).all p) = true ↔
      s ≠ [] ∧ ∀ ch ∈ spreadStr s, p ch = true := by
  by_cases h : s = []
  · subst h; simp
  · rw [if_neg (by simpa [List.length_eq_zero] using h)]
    simp [List.all_eq_true, h]

/-- C7: each of the three whole-string predicates is true exactly when the
string is nonempty and every spread character satisfies the corresponding
single-character predicate; all three are false on the empty string. -/
theorem isAll_characterisation (s : List Nat) :
    (isAllHiragana s = true ↔ s ≠ [] ∧ ∀ ch ∈ spreadStr s, isHiragana ch = true) ∧
    (isAllKatakana s = true ↔ s ≠ [] ∧ ∀ ch ∈ spreadStr s, isKatakana ch = true) ∧
    (isAllKanji s = true ↔ s ≠ [] ∧ ∀ ch ∈ spreadStr s, isKanji ch = true) ∧
    isAllHiragana [] = false ∧ isAllKatakana [] = false ∧ isAllKanji [] = false := by
  refine ⟨?_, ?_, ?_, by decide, by decide, by decide⟩
  · simpa only [isAllHiragana] using isAllAux_iff isHiragana s
  · simpa only [isAllKatakana] using isAllAux_iff isKatakana s
  · simpa only [isAllKanji] using isAllAux_iff isKanji s

/-- C6: hiragana-to-katakana followed by katakana-to-hiragana is the
identity on strings whose code units all lie in [0x3041, 0x3096]. -/
theorem katakanaToHiragana_hiraganaToKatakana (s : List Nat)
    (h : ∀ c ∈ s, 0x3041 ≤ c ∧ c ≤ 0x3096) :
    katakanaToHiragana (hiraganaToKatakana s) = s := by
  induction s with
  | nil => rfl
  | cons c t ih =>
    have hc := h c (List.mem_cons_self c t)
    have ht := ih fun x hx => h x (List.mem_cons_of_mem c hx)
    simp only [hiraganaToKatakana, katakanaToHiragana, List.map_cons] at ht ⊢
    rw [if_pos hc, if_pos (by omega : 0x30A1 ≤ c + 0x60 ∧ c + 0x60 ≤ 0x30F6), ht,
      Nat.add_sub_cancel]

/-- Closed witness for the C6 round trip on にほんご. -/
theorem katakanaToHiragana_hiraganaToKatakana_witness :
    (∀ c ∈ ([0x306B, 0x307B, 0x3093, 0x3054] : List Nat), 0x3041 ≤ c ∧ c ≤ 0x3096) ∧
    katakanaToHiragana (hiraganaToKatakana [0x306B, 0x307B, 0x3093, 0x3054]) =
      [0x306B, 0x307B, 0x3093, 0x3054] :=
  ⟨by decide, katakanaToHiragana_hiraganaToKatakana _ (by decide)⟩

/-- C9: every public function of the library is a total function in this
embedding, and on the degenerate empty input the predicates return false,
the statistics return zero counts and the transforms return the empty
string, exactly as the specification's error-handling contract states. -/
theorem totality_degenerate_defaults :
    isHiragana [] = false ∧ isKatakana [] = false ∧ isKanji [] = false ∧
    isFullWidth [] = false ∧ isHalfWidth [] = false ∧
    isAllHiragana [] = false ∧ isAllKatakana [] = false ∧ isAllKanji [] = false ∧
    hiraganaToKatakana [] = [] ∧ katakanaToHiragana [] = [] ∧
    halfToFullKatakana [] = [] ∧ fullToHalfAlphanumeric [] = [] ∧
    halfToFullAlphanumeric [] = [] ∧ getDisplayWidth [] = 0 ∧
    getCharacterStats [] = ⟨0, 0, 0, 0, 0, 0, 0⟩ ∧
    extractHiragana [] = [] ∧ extractKatakana [] = [] ∧ extractKanji [] = [] ∧
    removeAllWhitespace [] = [] ∧ normalizeWhitespace [] = [] ∧
    trimJapanese [] = [] := by decide

/-! ## Helper lemmas about the spread, filters and dropWhile -/

/-- Every element produced by the spread is a nonempty string. -/
theorem spreadStr_ne_nil (s : List Nat) : ∀ ch ∈ spreadStr s, ch ≠ [] := by
  induction s using spreadStr.induct with
  | case1 => simp [spreadStr]
  | case2 u => simp [spreadStr]
  | case3 u l rest h ih =>
    simp only [spreadStr, if_pos h, List.mem_cons]
    rintro ch (rfl | hch)
    · simp
    · exact ih ch hch
  | case4 u l rest h ih =>
    simp only [spreadStr, if_neg h, List.mem_cons]
    rintro ch (rfl | hch)
    · simp
    · exact ih ch hch

/-- On nonempty strings `isHalfWidth` is the negation of `isFullWidth`. -/
theorem isHalfWidth_eq_not (ch : List Nat) (h : ch ≠ []) :
    isHalfWidth ch = !isFullWidth ch := by
  cases ch with
  | nil => exact absurd rfl h
  | cons a t => rfl

/-- Filtering by a predicate and by its pointwise negation partitions the
length. -/
theorem length_filter_not_add {α : Type} (l : List α) (p q : α → Bool)
    (h : ∀ a ∈ l, q a = !p a) :
    (l.filter p).length + (l.filter q).length = l.length := by
  induction l with
  | nil => rfl
  | cons a t ih =>
    have ha := h a (List.mem_cons_self a t)
    have ht := ih fun x hx => h x (List.mem_cons_of_mem a hx)
    cases hpa : p a
    · rw [hpa] at ha
      rw [List.filter_cons, List.filter_cons, if_neg (by simp [hpa]),
        if_pos (by simp [ha])]
      simp only [List.length_cons]
      omega
    · rw [hpa] at ha
      rw [List.filter_cons, List.filter_cons, if_pos (by simp [hpa]),
        if_neg (by simp [ha])]
      simp only [List.length_cons]
      omega

/-- Three pairwise-exclusive filters cannot count more than the length. -/
theorem length_filter_three_le {α : Type} (l : List α) (p q r : α → Bool)
    (hpq : ∀ a ∈ l, p a = true → q a = false)
    (hpr : ∀ a ∈ l, p a = true → r a = false)
    (hqr : ∀ a ∈ l, q a = true → r a = false) :
    (l.filter p).length + (l.filter q).length + (l.filter r).length ≤ l.length := by
  induction l with
  | nil => simp
  | cons a t ih =>
    have ht := ih (fun x hx => hpq x (List.mem_cons_of_mem a hx))
      (fun x hx => hpr x (List.mem_cons_of_mem a hx))
      (fun x hx => hqr x (List.mem_cons_of_mem a hx))
    have h1 := hpq a (List.mem_cons_self a t)
    have h2 := hpr a (List.mem_cons_self a t)
    have h3 := hqr a (List.mem_cons_self a t)
    rw [List.filter_cons, List.filter_cons, List.filter_cons]
    cases hp : p a <;> cases hq : q a <;> cases hr : r a <;>
      simp_all <;> omega

/-- The display-width fold counted through the two width filters. -/
theorem foldl_width_eq (l : List (List Nat)) (n : Nat) :
    l.foldl (fun width char => width + if isFullWidth char then 2 else 1) n =
      n + 2 * (l.filter isFullWidth).length +
        (l.filter fun ch => !isFullWidth ch).length := by
  induction l generalizing n with
  | nil => simp
  | cons a t ih =>
    rw [List.foldl_cons, ih, List.filter_cons, List.filter_cons]
    cases hfa : isFullWidth a <;> simp [hfa] <;> omega

/-- The hiragana, katakana and kanji predicates are pairwise exclusive. -/
theorem script_disjoint (ch : List Nat) :
    (isHiragana ch = true → isKatakana ch = false) ∧
    (isHiragana ch = true → isKanji ch = false) ∧
    (isKatakana ch = true → isKanji ch = false) := by
  cases ch with
  | nil => simp [isHiragana, isKatakana, isKanji]
  | cons c t =>
    simp only [isHiragana, isKatakana, isKanji, decide_eq_true_eq,
      decide_eq_false_iff_not]
    omega

/-- Spreading a string that starts with a non-high-surrogate unit. -/
theorem spreadStr_cons_not_high (u : Nat) (l : List Nat)
    (h : isHighSurrogate u = false) : spreadStr (u :: l) = [u] :: spreadStr l := by
  cases l with
  | nil => rfl
  | cons b t =>
    simp only [spreadStr]
    rw [if_neg (by simp [h])]

/-- Spreading a string that starts with a surrogate pair. -/
theorem spreadStr_cons_pair (u l : Nat) (t : List Nat)
    (hu : isHighSurrogate u = true) (hl : isLowSurrogate l = true) :
    spreadStr (u :: l :: t) = [u, l] :: spreadStr t := by
  simp only [spreadStr]
  rw [if_pos (by simp [hu, hl])]

/-- Encoding distributes over cons. -/
theorem utf16Encode_cons (cp : Nat) (t : List Nat) :
    utf16Encode (cp :: t) = utf16Char cp ++ utf16Encode t := by
  simp [utf16Encode]

/-- Spreading the UTF-16 encoding of scalar values recovers one element
per scalar value. -/
theorem spreadStr_utf16Encode (cps : List Nat)
    (h : ∀ cp ∈ cps, ScalarValue cp) :
    spreadStr (utf16Encode cps) = cps.map utf16Char := by
  induction cps with
  | nil => rfl
  | cons cp t ih =>
    have hcp := h cp (List.mem_cons_self cp t)
    have ht := ih fun x hx => h x (List.mem_cons_of_mem cp hx)
    obtain ⟨hlt, hns⟩ := hcp
    rw [utf16Encode_cons, List.map_cons]
    by_cases hbmp : cp < 0x10000
    · have he : utf16Char cp = [cp] := by unfold utf16Char; rw [if_pos hbmp]
      rw [he, List.cons_append, List.nil_append,
        spreadStr_cons_not_high cp _
          (by simp only [isHighSurrogate, decide_eq_false_iff_not]; omega),
        ht]
    · have he : utf16Char cp =
          [0xD800 + (cp - 0x10000) / 0x400, 0xDC00 + (cp - 0x10000) % 0x400] := by
        unfold utf16Char; rw [if_neg hbmp]
      rw [he, List.cons_append, List.cons_append, List.nil_append,
        spreadStr_cons_pair _ _ _
          (by simp only [isHighSurrogate, decide_eq_true_eq]; omega)
          (by simp only [isLowSurrogate, decide_eq_true_eq]; omega),
        ht]

/-- C5: over the encoding of any sequence of Unicode scalar values the
statistics record satisfies fullWidth + halfWidth = total, total is the
number of scalar values, and hiragana + katakana + kanji ≤ total. -/
theorem getCharacterStats_invariants (cps : List Nat)
    (h : ∀ cp ∈ cps, ScalarValue cp) :
    (getCharacterStats (utf16Encode cps)).fullWidth +
        (getCharacterStats (utf16Encode cps)).halfWidth =
      (getCharacterStats (utf16Encode cps)).total ∧
    (getCharacterStats (utf16Encode cps)).total = cps.length ∧
    (getCharacterStats (utf16Encode cps)).hiragana +
        (getCharacterStats (utf16Encode cps)).katakana +
        (getCharacterStats (utf16Encode cps)).kanji ≤
      (getCharacterStats (utf16Encode cps)).total := by
  refine ⟨?_, ?_, ?_⟩
  · show ((spreadStr (utf16Encode cps)).filter isFullWidth).length +
        ((spreadStr (utf16Encode cps)).filter isHalfWidth).length =
      (spreadStr (utf16Encode cps)).length
    exact length_filter_not_add _ _ _
      fun ch hch => isHalfWidth_eq_not ch (spreadStr_ne_nil _ ch hch)
  · show (spreadStr (utf16Encode cps)).length = cps.length
    rw [spreadStr_utf16Encode cps h, List.length_map]
  · show ((spreadStr (utf16Encode cps)).filter isHiragana).length +
        ((spreadStr (utf16Encode cps)).filter isKatakana).length +
        ((spreadStr (utf16Encode cps)).filter isKanji).length ≤
      (spreadStr (utf16Encode cps)).length
    exact length_filter_three_le _ _ _ _
      (fun ch _ => (script_disjoint ch).1)
      (fun ch _ => (script_disjoint ch).2.1)
      (fun ch _ => (script_disjoint ch).2.2)

/-- Closed witness for C5 on あアA𠮟 (three BMP scalars and one
Extension B scalar). -/
theorem getCharacterStats_invariants_witness :
    (∀ cp ∈ ([0x3042, 0x30A2, 0x41, 0x20B9F] : List Nat), ScalarValue cp) ∧
    ((getCharacterStats (utf16Encode [0x3042, 0x30A2, 0x41, 0x20B9F])).fullWidth +
        (getCharacterStats (utf16Encode [0x3042, 0x30A2, 0x41, 0x20B9F])).halfWidth =
      (getCharacterStats (utf16Encode [0x3042, 0x30A2, 0x41, 0x20B9F])).total ∧
    (getCharacterStats (utf16Encode [0x3042, 0x30A2, 0x41, 0x20B9F])).total =
      ([0x3042, 0x30A2, 0x41, 0x20B9F] : List Nat).length ∧
    (getCharacterStats (utf16Encode [0x3042, 0x30A2, 0x41, 0x20B9F])).hiragana +
        (getCharacterStats (utf16Encode [0x3042, 0x30A2, 0x41, 0x20B9F])).katakana +
        (getCharacterStats (utf16Encode [0x3042, 0x30A2, 0x41, 0x20B9F])).kanji ≤
      (getCharacterStats (utf16Encode [0x3042, 0x30A2, 0x41, 0x20B9F])).total) :=
  ⟨by decide, getCharacterStats_invariants _ (by decide)⟩

/-- C10: the display width recorded in the statistics is exactly twice the
full-width count plus the half-width count, and coincides with
`getDisplayWidth`. -/
theorem displayWidth_from_width_counts (s : List Nat) :
    (getCharacterStats s).displayWidth =
      2 * (getCharacterStats s).fullWidth + (getCharacterStats s).halfWidth ∧
    (getCharacterStats s).displayWidth = getDisplayWidth s := by
  constructor
  · show getDisplayWidth s =
      2 * ((spreadStr s).filter isFullWidth).length +
        ((spreadStr s).filter isHalfWidth).length
    have hhw : (spreadStr s).filter isHalfWidth =
        (spreadStr s).filter fun ch => !isFullWidth ch :=
      List.filter_congr fun ch hch => isHalfWidth_eq_not ch (spreadStr_ne_nil s ch hch)
    rw [hhw]
    unfold getDisplayWidth
    rw [foldl_width_eq]
    omega
  · rfl

/-- Idempotence of dropWhile. -/
theorem dropWhile_idem {α : Type} (p : α → Bool) (l : List α) :
    (l.dropWhile p).dropWhile p = l.dropWhile p := by
  induction l with
  | nil => rfl
  | cons a t ih =>
    cases hpa : p a
    · rw [List.dropWhile_cons_of_neg (by simp [hpa]),
        List.dropWhile_cons_of_neg (by simp [hpa])]
    · rw [List.dropWhile_cons_of_pos (by simp [hpa])]
      exact ih

/-- A list fixed by dropWhile has a head failing the predicate. -/
theorem head_not_of_dropWhile_fix {α : Type} (p : α → Bool) (a : α) (x : List α)
    (h : (a :: x).dropWhile p = a :: x) : p a = false := by
  cases hpa : p a
  · rfl
  · exfalso
    rw [List.dropWhile_cons_of_pos (by simp [hpa])] at h
    have hlen := (List.dropWhile_sublist (l := x) p).length_le
    rw [h] at hlen
    simp only [List.length_cons] at hlen
    omega

/-- A list whose head fails the predicate is fixed by dropWhile. -/
theorem dropWhile_eq_self_of_head_false {α : Type} (p : α → Bool) (l : List α)
    (h : ∀ a t, l = a :: t → p a = false) : l.dropWhile p = l := by
  cases l with
  | nil => rfl
  | cons a t => exact List.dropWhile_cons_of_neg (by simp [h a t rfl])

/-- Strings trimmed at both ends are fixed points of `trimJapanese`. -/
theorem trimJapanese_of_fix (u : List Nat)
    (h1 : u.dropWhile wsClass = u)
    (h2 : u.reverse.dropWhile wsClass = u.reverse) :
    trimJapanese u = u := by
  unfold trimJapanese
  rw [h1, h2, List.reverse_reverse]

/-- C8: both `trimJapanese` and `removeAllWhitespace` are idempotent. -/
theorem trim_remove_idempotent (s : List Nat) :
    trimJapanese (trimJapanese s) = trimJapanese s ∧
    removeAllWhitespace (removeAllWhitespace s) = removeAllWhitespace s := by
  constructor
  · apply trimJapanese_of_fix
    · apply dropWhile_eq_self_of_head_false
      intro a t2 hshape
      have hAfix : (s.dropWhile wsClass).dropWhile wsClass = s.dropWhile wsClass :=
        dropWhile_idem wsClass s
      have hsplit := List.takeWhile_append_dropWhile (p := wsClass)
        (l := (s.dropWhile wsClass).reverse)
      have hAdecomp : s.dropWhile wsClass =
          ((s.dropWhile wsClass).reverse.dropWhile wsClass).reverse ++
            ((s.dropWhile wsClass).reverse.takeWhile wsClass).reverse := by
        have hr := congrArg List.reverse hsplit
        rw [List.reverse_append, List.reverse_reverse] at hr
        exact hr.symm
      unfold trimJapanese at hshape
      rw [hAdecomp, hshape, List.cons_append] at hAfix
      exact head_not_of_dropWhile_fix wsClass a _ hAfix
    · unfold trimJapanese
      rw [List.reverse_reverse]
      exact dropWhile_idem wsClass _
  · unfold removeAllWhitespace
    rw [List.filter_filter]
    exact List.filter_congr fun a _ => Bool.and_self _

end JTU
